import Mathlib

/-!
Verification of the two experiment-runner scripts of the auditory-EEG
challenge repository:

* task1_match_mismatch/experiments/dilated_convolutional_model.py
* task2_regression/experiments/vlaai_mel.py

The scripts are linear pipelines over file names, association lists
(Python dicts) and an opaque Keras model.  We embed:

* the Python string operations the scripts use on basenames
  (str.split, str.startswith, the substring operator `in`),
* the glob-based split-file discovery and its feature filter,
* the per-subject grouping of test files,
* evaluate_model (both the match-mismatch and the regression variant),
  with the Keras model abstracted to its metric names and the list of
  scalars model.evaluate returns,
* Python dict construction dict(zip(..)) and item assignment,
* the effect trace of the only_evaluate branch,
* json.dump of the evaluation mapping.

Paths: both scripts immediately apply os.path.basename to every glob
result, and glob(join(dir, "pre*")) returns join(dir, e) exactly for the
directory entries e (which contain no separator) matching "pre*", so the
embedding works directly with the list of entry names of the listed data
folder; basenames and entries coincide.
-/

namespace AuditoryEEG

/-- Embedding of Python str.split with a non-empty separator, on character
lists.  The fuel argument makes the recursion structural; every step
consumes at least one character of the input, so any fuel larger than the
input length is enough.  The accumulator holds the current token reversed. -/
def chSplit (sep : List Char) : Nat → List Char → List Char → List (List Char)
  | _, acc, [] => [acc.reverse]
  | 0, acc, l => [acc.reverse ++ l]
  | fuel + 1, acc, c :: rest =>
    if List.isPrefixOf sep (c :: rest) then
      acc.reverse :: chSplit sep fuel [] (List.drop sep.length (c :: rest))
    else
      chSplit sep fuel (c :: acc) rest

/-- Python s.split(sep) for a non-empty sep, e.g.
pySplit "test_-_S1_-_eeg.npy" "_-_" = ["test", "S1", "eeg.npy"]. -/
def pySplit (s sep : String) : List String :=
  (chSplit sep.toList (s.toList.length + 1) [] s.toList).map List.asString

/-- Python s.startswith(pre). -/
def pyStartsWith (s pre : String) : Bool :=
  List.isPrefixOf pre.toList s.toList

/-- Substring search on character lists: the needle occurs contiguously in
the haystack. -/
def chContains : List Char → List Char → Bool
  | _, [] => true
  | [], _ :: _ => false
  | c :: rest, n :: ns => List.isPrefixOf (n :: ns) (c :: rest) || chContains rest (n :: ns)

/-- Python membership test sub in s on strings (substring containment),
as used by the scripts in sub in os.path.basename(f). -/
def pyIn (sub s : String) : Bool :=
  chContains s.toList sub.toList

/-- The second "_-_"-separated token of a basename:
os.path.basename(x).split("_-_")[1].  Every file the scripts index this
way starts with "<split>_-_", so the token exists; the default "" is never
reached on those inputs. -/
def subjectOf (s : String) : String :=
  (pySplit s "_-_").getD 1 ""

/-- The feature name of a basename:
os.path.basename(x).split("_-_")[-1].split(".")[0]
(last "_-_" token, cut at the first dot). -/
def featureOf (s : String) : String :=
  (pySplit ((pySplit s "_-_").getLastD "") ".").getD 0 ""

/-- Features selected by the match-mismatch script:
features = ["eeg"] + stimulus_features with stimulus_features = ["envelope"]. -/
def featuresMM : List String := ["eeg", "envelope"]

/-- Features selected by the regression script:
features = ["eeg"] + stimulus_features with stimulus_features = ["mel"]. -/
def featuresReg : List String := ["eeg", "mel"]

/-- glob.glob(os.path.join(data_folder, pre ++ "*")) over the entries of
the listed folder: the entries whose name starts with pre. -/
def globMatches (entries : List String) (pre : String) : List String :=
  entries.filter (fun e => pyStartsWith e pre)

/-- The list comprehension
[x for x in glob.glob(join(data_folder, pre ++ "*"))
   if basename(x).split("_-_")[-1].split(".")[0] in features]. -/
def selectSplitFiles (entries : List String) (pre : String) (features : List String) :
    List String :=
  (globMatches entries pre).filter (fun x => decide (featureOf x ∈ features))

/-- train_files of the match-mismatch script. -/
def trainFilesMM (entries : List String) : List String :=
  selectSplitFiles entries "train_-_" featuresMM

/-- val_files of the match-mismatch script. -/
def valFilesMM (entries : List String) : List String :=
  selectSplitFiles entries "val_-_" featuresMM

/-- test_files of the match-mismatch script. -/
def testFilesMM (entries : List String) : List String :=
  selectSplitFiles entries "test_-_" featuresMM

/-- train_files of the regression script (entries of the train subfolder). -/
def trainFilesReg (entries : List String) : List String :=
  selectSplitFiles entries "train_-_" featuresReg

/-- val_files of the regression script. -/
def valFilesReg (entries : List String) : List String :=
  selectSplitFiles entries "val_-_" featuresReg

/-- test_files of the regression script. -/
def testFilesReg (entries : List String) : List String :=
  selectSplitFiles entries "test_-_" featuresReg

/-- subjects = list(set([os.path.basename(x).split("_-_")[1] for x in test_files])):
the distinct subject tokens of the test files.  Python's set iteration
order is unspecified; dedup fixes one order with the same underlying set. -/
def subjectsOf (files : List String) : List String :=
  (files.map subjectOf).dedup

/-- files_test_sub = [f for f in test_files if sub in os.path.basename(f)]:
the substring-based per-subject grouping the scripts use. -/
def filesTestSub (files : List String) (sub : String) : List String :=
  files.filter (fun f => pyIn sub f)

/-- The grouping the spec's naming convention describes: the test files
whose subject field equals the subject.  Kept separate from filesTestSub
(the code's substring test) to compare the two. -/
def filesOfSubject (files : List String) (sub : String) : List String :=
  files.filter (fun f => subjectOf f == sub)

/-- datasets_test: one entry per subject, in the order of subjects,
holding the dataset built from that subject's grouped files.  The dataset
constructor (MatchMismatchDataGenerator/DataGenerator + create_tf_dataset)
is opaque to every claim and abstracted as mkDs. -/
def datasetsTest {Ds : Type} (mkDs : List String → Ds) (files : List String) :
    List (String × Ds) :=
  (subjectsOf files).map (fun sub => (sub, mkDs (filesTestSub files sub)))

/-- Python dict item assignment d[k] = v on an insertion-ordered
association list: replace the value at the first occurrence of the key,
else append the new pair. -/
def dictInsert {α : Type} : List (String × α) → String → α → List (String × α)
  | [], k, v => [(k, v)]
  | p :: rest, k, v =>
    if p.1 = k then (k, v) :: rest else p :: dictInsert rest k v

/-- Python dict lookup d[k]: the value at the first occurrence of the key. -/
def dictGet {α : Type} : List (String × α) → String → Option α
  | [], _ => none
  | p :: rest, k => if p.1 = k then some p.2 else dictGet rest k

/-- Left-to-right insertion of key-value pairs into a fresh dict, with the
value of each pair transformed by g: the common shape of dict(zip(..)) and
of the evaluation loop (evaluation[subject] = ..). -/
def insFold {γ β : Type} (g : γ → β) (d : List (String × β)) (l : List (String × γ)) :
    List (String × β) :=
  l.foldl (fun ev p => dictInsert ev p.1 (g p.2)) d

/-- Python dict(pairs): insert the pairs left to right into an empty dict,
so a repeated key keeps its first position and its last value. -/
def dictOfPairs {α : Type} (l : List (String × α)) : List (String × α) :=
  insFold id [] l

/-- Left-biased choice on Option, for stating lookup lemmas. -/
def optOr {α : Type} : Option α → Option α → Option α
  | some a, _ => some a
  | none, b => b

/-- The value of the LAST occurrence of the key in a pair list.
Characterises Python dict values after dict(pairs). -/
def lastVal {α : Type} : List (String × α) → String → Option α
  | [], _ => none
  | p :: rest, k => optOr (lastVal rest k) (if p.1 = k then some p.2 else none)

/-- Abstraction of the compiled Keras model as the two scripts use it for
evaluation: model.metrics_names, and model.evaluate(ds) returning one list
of scalars per dataset.  Scalars are embedded as rationals. -/
structure KModel (Ds : Type) where
  metricsNames : List String
  evalResults : Ds → List ℚ

/-- Abstraction of the regression script's compiled model: additionally
the per-band mean correlation list np.mean(correlations, axis=0).tolist()
computed from model.predict and pearson_tf_non_averaged (both opaque to
the claims). -/
structure KModelReg (Ds : Type) where
  metricsNames : List String
  evalResults : Ds → List ℚ
  perBand : Ds → List ℚ

/-- A value of the serialized evaluation dictionary of the regression
script: a scalar metric value or a per-band list. -/
inductive EvalValue : Type
  | num (q : ℚ)
  | arr (l : List ℚ)
deriving DecidableEq

/-- dict(zip(model.metrics_names, model.evaluate(ds))) for one subject of
the match-mismatch script. -/
def subjDictMM {Ds : Type} (m : KModel Ds) (ds : Ds) : List (String × ℚ) :=
  dictOfPairs (m.metricsNames.zip (m.evalResults ds))

/-- evaluate_model of the match-mismatch script: the loop
for subject, ds_test in test_dict.items():
  evaluation[subject] = dict(zip(model.metrics_names, model.evaluate(ds_test))). -/
def evaluateModelMM {Ds : Type} (m : KModel Ds) (testDict : List (String × Ds)) :
    List (String × List (String × ℚ)) :=
  testDict.foldl (fun ev p => dictInsert ev p.1 (subjDictMM m p.2)) []

/-- One subject's dictionary in the regression script:
evaluation[subject] = dict(zip(metrics, results)) followed by
evaluation[subject]["pearson_correlation_per_band"] = np.mean(..).tolist(). -/
def subjDictReg {Ds : Type} (m : KModelReg Ds) (ds : Ds) : List (String × EvalValue) :=
  dictInsert
    (dictOfPairs (m.metricsNames.zip ((m.evalResults ds).map EvalValue.num)))
    "pearson_correlation_per_band" (EvalValue.arr (m.perBand ds))

/-- evaluate_model of the regression script. -/
def evaluateModelReg {Ds : Type} (m : KModelReg Ds) (testDict : List (String × Ds)) :
    List (String × List (String × EvalValue)) :=
  testDict.foldl (fun ev p => dictInsert ev p.1 (subjDictReg m p.2)) []

/-- One iteration of the evaluate_model loop when model.evaluate may
raise, modelled by Option: a failure before or at this subject yields
none. -/
def evalStepE {Ds : Type} (names : List String) (evalFn : Ds → Option (List ℚ))
    (acc : Option (List (String × List (String × ℚ)))) (p : String × Ds) :
    Option (List (String × List (String × ℚ))) :=
  acc.bind (fun ev => (evalFn p.2).map (fun rs => dictInsert ev p.1 (dictOfPairs (names.zip rs))))

/-- evaluate_model with the possibility that model.evaluate raises
modelled by Option: the loop body runs subject by subject and an
exception aborts the whole call (there is no try/except in either
script), so a single failing subject makes the result none. -/
def evaluateModelE {Ds : Type} (names : List String) (evalFn : Ds → Option (List ℚ))
    (testDict : List (String × Ds)) : Option (List (String × List (String × ℚ))) :=
  testDict.foldl (evalStepE names evalFn) (some [])

/-- JSON string literal (no escaping is needed for the subject and metric
names the scripts produce). -/
def jsonStrLit (s : String) : String :=
  "\"" ++ s ++ "\""

/-- JSON object serialization with Python json.dump's default separators. -/
def jsonOfObj {α : Type} (render : α → String) (d : List (String × α)) : String :=
  "\x7b" ++ String.intercalate ", " (d.map (fun p => jsonStrLit p.1 ++ ": " ++ render p.2))
    ++ "\x7d"

/-- Decimal-free rendering of a scalar; the exact numeral format is
irrelevant to the claims. -/
def renderQ (q : ℚ) : String :=
  toString q.num ++ "/" ++ toString q.den

/-- json.dump(evaluation, fp) for the match-mismatch evaluation mapping. -/
def jsonOfEval (ev : List (String × List (String × ℚ))) : String :=
  jsonOfObj (jsonOfObj renderQ) ev

/-- The tail of either script after the per-subject datasets are built:
evaluation = evaluate_model(model, datasets_test); json.dump(evaluation, fp).
The write of eval.json happens only when the whole evaluation succeeded;
an exception in evaluate_model propagates and nothing is written. -/
def evalJsonWrite {Ds : Type} (names : List String) (evalFn : Ds → Option (List ℚ))
    (testDict : List (String × Ds)) : Option (String × String) :=
  (evaluateModelE names evalFn testDict).map (fun ev => ("eval.json", jsonOfEval ev))

/-- The externally visible actions of one script run, in program order. -/
inductive ScriptEffect : Type
  | loadCheckpoint
  | discoverTrainFiles
  | discoverValFiles
  | fitModel
  | writeModelCheckpoint
  | writeTrainingLog
  | discoverTestFiles
  | evaluateSubjects
  | writeEvalJson
deriving DecidableEq

/-- The effect trace of the main block of either script as a function of
the only_evaluate flag: the if-branch only loads the checkpoint, the
else-branch discovers train and val files and fits the model, whose
ModelCheckpoint and CSVLogger callbacks write model.h5 and
training_log.csv; both branches are followed by test-file discovery,
per-subject evaluation and the eval.json dump. -/
def scriptEffects (onlyEvaluate : Bool) : List ScriptEffect :=
  (if onlyEvaluate then
    [ScriptEffect.loadCheckpoint]
  else
    [ScriptEffect.discoverTrainFiles, ScriptEffect.discoverValFiles,
     ScriptEffect.fitModel, ScriptEffect.writeModelCheckpoint,
     ScriptEffect.writeTrainingLog])
  ++ [ScriptEffect.discoverTestFiles, ScriptEffect.evaluateSubjects,
      ScriptEffect.writeEvalJson]

/-- A whole script run as a function of the process argument vector and
its inputs.  Neither script reads sys.argv (the match-mismatch script
never imports sys; the regression script uses sys only for
sys.path.append), so argv is a dead parameter of the run. -/
def scriptRun (argv : List String) (onlyEvaluate : Bool) (entries : List String)
    (features : List String) : List ScriptEffect × List String :=
  (scriptEffects onlyEvaluate, selectSplitFiles entries "test_-_" features)

/-- The evaluation loop with the test_dict threaded through as state: the
loop body only reads test_dict.items() and assigns into the fresh dict
evaluation, so the test_dict component is carried through unchanged. -/
def evalLoopSt {Ds : Type} (m : KModel Ds) :
    List (String × Ds) →
    List (String × Ds) × List (String × List (String × ℚ)) →
    List (String × Ds) × List (String × List (String × ℚ))
  | [], st => st
  | p :: rest, (tdState, ev) =>
    evalLoopSt m rest (tdState, dictInsert ev p.1 (subjDictMM m p.2))

/-- evaluate_model returning both the (unchanged) test_dict and the fresh
evaluation dict. -/
def evaluateModelSt {Ds : Type} (m : KModel Ds) (testDict : List (String × Ds)) :
    List (String × Ds) × List (String × List (String × ℚ)) :=
  evalLoopSt m testDict (testDict, [])

/-! Helper lemmas. -/

theorem mem_selectSplitFiles (entries : List String) (pre : String) (feats : List String)
    (x : String) :
    x ∈ selectSplitFiles entries pre feats ↔
      x ∈ entries ∧ pyStartsWith x pre = true ∧ featureOf x ∈ feats := by
  simp only [selectSplitFiles, globMatches, List.mem_filter, decide_eq_true_eq]
  tauto

theorem optOr_none {α : Type} (a : Option α) : optOr a none = a := by
  cases a <;> rfl

theorem optOr_map {α β : Type} (f : α → β) (a b : Option α) :
    optOr (a.map f) (b.map f) = (optOr a b).map f := by
  cases a <;> rfl

theorem dictGet_dictInsert {α : Type} (d : List (String × α)) (k : String) (v : α)
    (k' : String) :
    dictGet (dictInsert d k v) k' = if k = k' then some v else dictGet d k' := by
  induction d with
  | nil => simp [dictInsert, dictGet]
  | cons p rest ih =>
    by_cases h1 : p.1 = k
    · by_cases h2 : k = k'
      · simp [dictInsert, dictGet, h1, h2]
      · have h3 : p.1 ≠ k' := by rw [h1]; exact h2
        simp [dictInsert, dictGet, h1, h2, h3]
    · by_cases h3 : p.1 = k'
      · have h2 : k ≠ k' := by
          intro he
          exact h1 (by rw [he, h3])
        simp [dictInsert, dictGet, h1, h3, h2, Ne.symm h2]
      · simp [dictInsert, dictGet, h1, h3, ih]

theorem mem_keys_dictInsert {α : Type} (d : List (String × α)) (k : String) (v : α)
    (k' : String) :
    k' ∈ (dictInsert d k v).map Prod.fst ↔ k' ∈ d.map Prod.fst ∨ k' = k := by
  induction d with
  | nil => simp [dictInsert]
  | cons p rest ih =>
    by_cases h1 : p.1 = k
    · simp [dictInsert, h1]
      tauto
    · simp [dictInsert, h1, ih]
      tauto

theorem nodupKeys_dictInsert {α : Type} (d : List (String × α)) (k : String) (v : α)
    (hd : (d.map Prod.fst).Nodup) : ((dictInsert d k v).map Prod.fst).Nodup := by
  induction d with
  | nil => simp [dictInsert]
  | cons p rest ih =>
    simp only [List.map_cons, List.nodup_cons] at hd
    simp only [dictInsert]
    by_cases h1 : p.1 = k
    · rw [if_pos h1]
      simp only [List.map_cons, List.nodup_cons]
      exact ⟨h1 ▸ hd.1, hd.2⟩
    · rw [if_neg h1]
      simp only [List.map_cons, List.nodup_cons]
      refine ⟨?_, ih hd.2⟩
      rw [mem_keys_dictInsert]
      push_neg
      exact ⟨hd.1, h1⟩

theorem dictInsert_of_not_mem {α : Type} (d : List (String × α)) (k : String) (v : α)
    (hk : k ∉ d.map Prod.fst) : dictInsert d k v = d ++ [(k, v)] := by
  induction d with
  | nil => rfl
  | cons p rest ih =>
    simp only [List.map_cons, List.mem_cons] at hk
    push_neg at hk
    have h1 : p.1 ≠ k := fun he => hk.1 he.symm
    simp [dictInsert, h1, ih hk.2]

theorem insFold_nil {γ β : Type} (g : γ → β) (d : List (String × β)) :
    insFold g d [] = d := rfl

theorem insFold_cons {γ β : Type} (g : γ → β) (d : List (String × β)) (p : String × γ)
    (l : List (String × γ)) :
    insFold g d (p :: l) = insFold g (dictInsert d p.1 (g p.2)) l := rfl

theorem dictGet_insFold {γ β : Type} (g : γ → β) :
    ∀ (l : List (String × γ)) (d : List (String × β)) (k : String),
      dictGet (insFold g d l) k = optOr ((lastVal l k).map g) (dictGet d k) := by
  intro l
  induction l with
  | nil => intro d k; rfl
  | cons p rest ih =>
    intro d k
    rw [insFold_cons, ih, dictGet_dictInsert]
    cases h : lastVal rest k with
    | some v => simp [lastVal, h, optOr]
    | none =>
      by_cases hk : p.1 = k
      · simp [lastVal, h, optOr, hk]
      · simp [lastVal, h, optOr, hk]

theorem mem_keys_insFold {γ β : Type} (g : γ → β) :
    ∀ (l : List (String × γ)) (d : List (String × β)) (k : String),
      k ∈ (insFold g d l).map Prod.fst ↔ k ∈ d.map Prod.fst ∨ k ∈ l.map Prod.fst := by
  intro l
  induction l with
  | nil => intro d k; simp [insFold_nil]
  | cons p rest ih =>
    intro d k
    rw [insFold_cons, ih, mem_keys_dictInsert]
    simp
    tauto

theorem nodupKeys_insFold {γ β : Type} (g : γ → β) :
    ∀ (l : List (String × γ)) (d : List (String × β)),
      (d.map Prod.fst).Nodup → ((insFold g d l).map Prod.fst).Nodup := by
  intro l
  induction l with
  | nil => intro d hd; exact hd
  | cons p rest ih =>
    intro d hd
    rw [insFold_cons]
    exact ih _ (nodupKeys_dictInsert _ _ _ hd)

theorem keys_insFold_of_nodup {γ β : Type} (g : γ → β) :
    ∀ (l : List (String × γ)) (d : List (String × β)),
      (l.map Prod.fst).Nodup → (∀ k ∈ l.map Prod.fst, k ∉ d.map Prod.fst) →
      (insFold g d l).map Prod.fst = d.map Prod.fst ++ l.map Prod.fst := by
  intro l
  induction l with
  | nil => intro d _ _; simp [insFold_nil]
  | cons p rest ih =>
    intro d hl hdisj
    simp only [List.map_cons, List.nodup_cons] at hl
    rw [insFold_cons,
        dictInsert_of_not_mem d p.1 (g p.2) (hdisj p.1 (by simp)),
        ih (d ++ [(p.1, g p.2)]) hl.2 ?_]
    · simp
    · intro k hk
      simp only [List.map_append, List.mem_append]
      push_neg
      constructor
      · exact hdisj k (by simp [hk])
      · simp only [List.map_cons, List.map_nil, List.mem_singleton]
        intro he
        exact hl.1 (he ▸ hk)

theorem lastVal_eq_none {α : Type} :
    ∀ (l : List (String × α)) (k : String), k ∉ l.map Prod.fst → lastVal l k = none := by
  intro l
  induction l with
  | nil => intro k _; rfl
  | cons p rest ih =>
    intro k hk
    simp only [List.map_cons, List.mem_cons] at hk
    push_neg at hk
    have h1 : p.1 ≠ k := fun he => hk.1 he.symm
    simp [lastVal, ih k hk.2, optOr, h1]

theorem lastVal_mem {α : Type} :
    ∀ (l : List (String × α)) (k : String), k ∈ l.map Prod.fst →
      ∃ v, lastVal l k = some v ∧ (k, v) ∈ l := by
  intro l
  induction l with
  | nil => intro k hk; simp at hk
  | cons p rest ih =>
    intro k hk
    by_cases hr : k ∈ rest.map Prod.fst
    · obtain ⟨v, hv, hm⟩ := ih k hr
      exact ⟨v, by simp [lastVal, hv, optOr], List.mem_cons_of_mem _ hm⟩
    · have hp : p.1 = k := by
        simp only [List.map_cons, List.mem_cons] at hk
        rcases hk with hk | hk
        · exact hk.symm
        · exact absurd hk hr
      refine ⟨p.2, ?_, ?_⟩
      · simp [lastVal, lastVal_eq_none rest k hr, optOr, hp]
      · exact List.mem_cons.mpr (Or.inl (by rw [← hp]))

theorem dictGet_dictOfPairs {α : Type} (l : List (String × α)) (k : String) :
    dictGet (dictOfPairs l) k = lastVal l k := by
  rw [dictOfPairs, dictGet_insFold]
  simp [dictGet, optOr_none]

theorem map_fst_zip_take {α β : Type} :
    ∀ (l1 : List α) (l2 : List β), (l1.zip l2).map Prod.fst = l1.take l2.length := by
  intro l1
  induction l1 with
  | nil => intro l2; simp
  | cons a l1 ih =>
    intro l2
    cases l2 with
    | nil => simp
    | cons b l2 => simp [ih]

theorem lastVal_zip_map {α β : Type} (f : α → β) :
    ∀ (ks : List String) (vs : List α) (k : String),
      lastVal (ks.zip (vs.map f)) k = (lastVal (ks.zip vs) k).map f := by
  intro ks
  induction ks with
  | nil => intro vs k; rfl
  | cons a ks ih =>
    intro vs k
    cases vs with
    | nil => rfl
    | cons v vs =>
      have h1 : (a :: ks).zip ((v :: vs).map f) = (a, f v) :: ks.zip (vs.map f) := rfl
      have h2 : (a :: ks).zip (v :: vs) = (a, v) :: ks.zip vs := rfl
      rw [h1, h2]
      simp only [lastVal]
      rw [ih, ← optOr_map]
      by_cases hk : a = k <;> simp [hk]

theorem length_dictOfPairs {α : Type} (l : List (String × α)) :
    (dictOfPairs l).length = (l.map Prod.fst).dedup.length := by
  have hnd : ((dictOfPairs l).map Prod.fst).Nodup :=
    nodupKeys_insFold id l [] (by simp)
  have hperm : List.Perm ((dictOfPairs l).map Prod.fst) ((l.map Prod.fst).dedup) := by
    rw [List.perm_ext_iff_of_nodup hnd (List.nodup_dedup _)]
    intro a
    rw [List.mem_dedup]
    simp only [dictOfPairs]
    rw [mem_keys_insFold]
    simp
  have := hperm.length_eq
  simpa using this

theorem evaluateModelMM_eq_insFold {Ds : Type} (m : KModel Ds)
    (td : List (String × Ds)) :
    evaluateModelMM m td = insFold (subjDictMM m) [] td := rfl

theorem evaluateModelReg_eq_insFold {Ds : Type} (m : KModelReg Ds)
    (td : List (String × Ds)) :
    evaluateModelReg m td = insFold (subjDictReg m) [] td := rfl

theorem evalLoopSt_fst {Ds : Type} (m : KModel Ds) :
    ∀ (l : List (String × Ds)) (st : List (String × Ds) × List (String × List (String × ℚ))),
      (evalLoopSt m l st).1 = st.1 := by
  intro l
  induction l with
  | nil => intro st; rfl
  | cons p rest ih => intro st; rcases st with ⟨td, ev⟩; simpa [evalLoopSt] using ih _

theorem evalLoopSt_snd {Ds : Type} (m : KModel Ds) :
    ∀ (l : List (String × Ds)) (td : List (String × Ds))
      (ev : List (String × List (String × ℚ))),
      (evalLoopSt m l (td, ev)).2 =
        l.foldl (fun ev p => dictInsert ev p.1 (subjDictMM m p.2)) ev := by
  intro l
  induction l with
  | nil => intro td ev; rfl
  | cons p rest ih => intro td ev; simpa [evalLoopSt] using ih _ _

theorem foldl_evalStepE_none {Ds : Type} (names : List String)
    (evalFn : Ds → Option (List ℚ)) :
    ∀ l : List (String × Ds), l.foldl (evalStepE names evalFn) none = none := by
  intro l
  induction l with
  | nil => rfl
  | cons p rest ih => exact ih

theorem evalE_some {Ds : Type} (names : List String) (evalFn : Ds → Option (List ℚ)) :
    ∀ (l : List (String × Ds)) (ev0 : List (String × List (String × ℚ))),
      (∀ p ∈ l, (evalFn p.2).isSome = true) →
      ∃ ev, l.foldl (evalStepE names evalFn) (some ev0) = some ev := by
  intro l
  induction l with
  | nil => intro ev0 _; exact ⟨ev0, rfl⟩
  | cons p rest ih =>
    intro ev0 h
    obtain ⟨rs, hrs⟩ := Option.isSome_iff_exists.mp (h p (by simp))
    have hstep : evalStepE names evalFn (some ev0) p
        = some (dictInsert ev0 p.1 (dictOfPairs (names.zip rs))) := by
      simp [evalStepE, hrs]
    rw [List.foldl_cons, hstep]
    exact ih _ (fun q hq => h q (by simp [hq]))

/-! Claim theorems. -/

/-- Claim C1: the per-subject grouping is required to select exactly the
test files whose subject field (second "_-_" token) equals the subject,
but the code's substring test sub in os.path.basename(f) over-selects
whenever one subject identifier occurs inside another file's basename.
Concretely, with test files for subjects sub-1 and sub-11 (both of which
pass the test-file selection of the match-mismatch script), the group
built for subject sub-1 contains both files, while the grouping the claim
describes contains only the sub-1 file. -/
theorem subject_grouping_substring_bug :
    testFilesMM ["test_-_sub-1_-_eeg.npy", "test_-_sub-11_-_eeg.npy"]
      = ["test_-_sub-1_-_eeg.npy", "test_-_sub-11_-_eeg.npy"] ∧
    subjectsOf ["test_-_sub-1_-_eeg.npy", "test_-_sub-11_-_eeg.npy"]
      = ["sub-1", "sub-11"] ∧
    filesTestSub ["test_-_sub-1_-_eeg.npy", "test_-_sub-11_-_eeg.npy"] "sub-1"
      = ["test_-_sub-1_-_eeg.npy", "test_-_sub-11_-_eeg.npy"] ∧
    filesOfSubject ["test_-_sub-1_-_eeg.npy", "test_-_sub-11_-_eeg.npy"] "sub-1"
      = ["test_-_sub-1_-_eeg.npy"] ∧
    subjectOf "test_-_sub-11_-_eeg.npy" ≠ "sub-1" := by
  decide

/-- Claim C2: a candidate path of the data folder lands in the train, val
or test file list (of either script) exactly when its basename starts
with the split's "<split>_-_" glob pattern and its last "_-_" token, cut
at the first dot, is one of that script's features (eeg/envelope for the
match-mismatch script, eeg/mel for the regression script). -/
theorem split_file_selection (entries : List String) (x : String) :
    (x ∈ trainFilesMM entries ↔
      x ∈ entries ∧ pyStartsWith x "train_-_" = true ∧ featureOf x ∈ featuresMM) ∧
    (x ∈ valFilesMM entries ↔
      x ∈ entries ∧ pyStartsWith x "val_-_" = true ∧ featureOf x ∈ featuresMM) ∧
    (x ∈ testFilesMM entries ↔
      x ∈ entries ∧ pyStartsWith x "test_-_" = true ∧ featureOf x ∈ featuresMM) ∧
    (x ∈ trainFilesReg entries ↔
      x ∈ entries ∧ pyStartsWith x "train_-_" = true ∧ featureOf x ∈ featuresReg) ∧
    (x ∈ valFilesReg entries ↔
      x ∈ entries ∧ pyStartsWith x "val_-_" = true ∧ featureOf x ∈ featuresReg) ∧
    (x ∈ testFilesReg entries ↔
      x ∈ entries ∧ pyStartsWith x "test_-_" = true ∧ featureOf x ∈ featuresReg) :=
  ⟨mem_selectSplitFiles entries "train_-_" featuresMM x,
   mem_selectSplitFiles entries "val_-_" featuresMM x,
   mem_selectSplitFiles entries "test_-_" featuresMM x,
   mem_selectSplitFiles entries "train_-_" featuresReg x,
   mem_selectSplitFiles entries "val_-_" featuresReg x,
   mem_selectSplitFiles entries "test_-_" featuresReg x⟩

/-- Claim C6: with only_evaluate set, the run's effect trace is exactly
loading the checkpoint followed by the evaluation steps: no train or val
file discovery, no fit, and neither model.h5 nor training_log.csv is
written (those writes occur only on the training branch). -/
theorem only_evaluate_skips_training :
    scriptEffects true
      = [ScriptEffect.loadCheckpoint, ScriptEffect.discoverTestFiles,
         ScriptEffect.evaluateSubjects, ScriptEffect.writeEvalJson] ∧
    ScriptEffect.discoverTrainFiles ∉ scriptEffects true ∧
    ScriptEffect.discoverValFiles ∉ scriptEffects true ∧
    ScriptEffect.fitModel ∉ scriptEffects true ∧
    ScriptEffect.writeModelCheckpoint ∉ scriptEffects true ∧
    ScriptEffect.writeTrainingLog ∉ scriptEffects true ∧
    ScriptEffect.writeEvalJson ∈ scriptEffects true ∧
    ScriptEffect.writeModelCheckpoint ∈ scriptEffects false ∧
    ScriptEffect.writeTrainingLog ∈ scriptEffects false := by
  decide

/-- Claim C7: the scripts never read the command-line arguments, so two
invocations differing only in argv have identical behaviour (same effect
trace, same selected files). -/
theorem cli_args_irrelevant (argv1 argv2 : List String) (onlyEvaluate : Bool)
    (entries features : List String) :
    scriptRun argv1 onlyEvaluate entries features
      = scriptRun argv2 onlyEvaluate entries features :=
  rfl

/-- Claim C9: an empty test_dict makes evaluate_model return the empty
dictionary without consulting the model at all (even an always-raising
model is never invoked), and the scripts then serialize the empty JSON
object to eval.json. -/
theorem empty_test_dict_empty_eval {Ds : Type} (m : KModel Ds) (mr : KModelReg Ds)
    (names : List String) (evalFn : Ds → Option (List ℚ)) :
    evaluateModelMM m [] = [] ∧
    evaluateModelReg mr [] = [] ∧
    evaluateModelE names evalFn [] = some [] ∧
    evaluateModelE names (fun _ : Ds => (none : Option (List ℚ))) [] = some [] ∧
    jsonOfEval [] = "\x7b\x7d" := by
  refine ⟨rfl, rfl, rfl, rfl, ?_⟩
  simp [jsonOfEval, jsonOfObj, String.intercalate]

/-- Claim C10: evaluate_model does not mutate its test_dict argument: the
state threaded through the evaluation loop comes back unchanged (same
subject keys, same dataset values), and the produced evaluation is that
of the pure evaluate_model. -/
theorem evaluate_model_preserves_test_dict {Ds : Type} (m : KModel Ds)
    (testDict : List (String × Ds)) :
    (evaluateModelSt m testDict).1 = testDict ∧
    (evaluateModelSt m testDict).2 = evaluateModelMM m testDict := by
  constructor
  · exact evalLoopSt_fst m testDict (testDict, [])
  · exact evalLoopSt_snd m testDict testDict []

/-- Claim C3: evaluate_model returns a subject-to-dictionary mapping; for
every subject present in the result, the subject's dictionary maps each
of the model's metric names to a single scalar (given the Keras contract
that model.evaluate returns one scalar per metrics_names entry), and in
the regression script it additionally maps pearson_correlation_per_band
to a list of scalars (the metric names stay scalar-valued because that
extra key is not one of them). -/
theorem evaluate_model_result_shape {Ds Er : Type} (m : KModel Ds) (mr : KModelReg Er)
    (hm : ∀ ds, (m.evalResults ds).length = m.metricsNames.length)
    (hr : ∀ ds, (mr.evalResults ds).length = mr.metricsNames.length)
    (hpb : "pearson_correlation_per_band" ∉ mr.metricsNames)
    (td : List (String × Ds)) (tdr : List (String × Er)) :
    (∀ sub d, dictGet (evaluateModelMM m td) sub = some d →
      ∀ name ∈ m.metricsNames, ∃ q : ℚ, dictGet d name = some q) ∧
    (∀ sub d, dictGet (evaluateModelReg mr tdr) sub = some d →
      (∀ name ∈ mr.metricsNames, ∃ q : ℚ, dictGet d name = some (EvalValue.num q)) ∧
      (∃ l : List ℚ, dictGet d "pearson_correlation_per_band" = some (EvalValue.arr l))) := by
  have hsub : ∀ {γ β : Type} (g : γ → β) (td2 : List (String × γ)) (sub : String)
      (d : β), dictGet (insFold g [] td2) sub = some d → ∃ ds, d = g ds := by
    intro γ β g td2 sub d hget
    rw [dictGet_insFold] at hget
    simp only [dictGet, optOr_none] at hget
    cases h : lastVal td2 sub with
    | none => rw [h] at hget; simp at hget
    | some ds =>
      rw [h] at hget
      simp only [Option.map_some', Option.some_inj] at hget
      exact ⟨ds, hget.symm⟩
  constructor
  · intro sub d hget name hname
    obtain ⟨ds, rfl⟩ := hsub (subjDictMM m) td sub d hget
    have hkeys : (m.metricsNames.zip (m.evalResults ds)).map Prod.fst = m.metricsNames := by
      rw [map_fst_zip_take, hm ds, List.take_length]
    obtain ⟨v, hv, _⟩ := lastVal_mem _ name (by rw [hkeys]; exact hname)
    refine ⟨v, ?_⟩
    rw [subjDictMM, dictGet_dictOfPairs, hv]
  · intro sub d hget
    obtain ⟨ds, rfl⟩ := hsub (subjDictReg mr) tdr sub d hget
    constructor
    · intro name hname
      have hne : "pearson_correlation_per_band" ≠ name := fun he => hpb (he ▸ hname)
      have hkeys : (mr.metricsNames.zip (mr.evalResults ds)).map Prod.fst
          = mr.metricsNames := by
        rw [map_fst_zip_take, hr ds, List.take_length]
      obtain ⟨v, hv, _⟩ := lastVal_mem _ name (by rw [hkeys]; exact hname)
      refine ⟨v, ?_⟩
      rw [subjDictReg, dictGet_dictInsert, if_neg hne, dictGet_dictOfPairs,
          lastVal_zip_map, hv]
      rfl
    · refine ⟨mr.perBand ds, ?_⟩
      rw [subjDictReg, dictGet_dictInsert, if_pos rfl]

/-- Witness for C3 at a concrete one-subject model. -/
theorem evaluate_model_result_shape_witness :
    (∃ q : ℚ,
      dictGet [("loss", EvalValue.num 0), ("pearson_correlation_per_band", EvalValue.arr [0, 0])]
        "loss" = some (EvalValue.num q)) ∧
    (∃ l : List ℚ,
      dictGet [("loss", EvalValue.num 0), ("pearson_correlation_per_band", EvalValue.arr [0, 0])]
        "pearson_correlation_per_band" = some (EvalValue.arr l)) := by
  have h := (evaluate_model_result_shape
      (⟨["loss"], fun _ => [0]⟩ : KModel Unit)
      (⟨["loss"], fun _ => [0], fun _ => [0, 0]⟩ : KModelReg Unit)
      (fun _ => rfl) (fun _ => rfl) (by decide)
      [("S1", ())] [("S1", ())]).2 "S1"
      [("loss", EvalValue.num 0), ("pearson_correlation_per_band", EvalValue.arr [0, 0])]
      rfl
  exact ⟨h.1 "loss" (by simp), h.2⟩

/-- Claim C4: the subjects evaluated (the keys of the evaluation mapping
serialized into eval.json) are exactly the distinct second "_-_" tokens
of the test-file basenames: every subject of some test file appears,
each exactly once, and nothing else appears. -/
theorem eval_json_subject_keys {Ds : Type} (m : KModel Ds) (mkDs : List String → Ds)
    (testFiles : List String) :
    ((evaluateModelMM m (datasetsTest mkDs testFiles)).map Prod.fst).Nodup ∧
    (evaluateModelMM m (datasetsTest mkDs testFiles)).map Prod.fst = subjectsOf testFiles ∧
    (∀ s, s ∈ (evaluateModelMM m (datasetsTest mkDs testFiles)).map Prod.fst ↔
      ∃ f ∈ testFiles, subjectOf f = s) := by
  have hkeys_td : (datasetsTest mkDs testFiles).map Prod.fst = subjectsOf testFiles := by
    simp [datasetsTest, List.map_map, Function.comp_def]
  have hnd : ((datasetsTest mkDs testFiles).map Prod.fst).Nodup := by
    rw [hkeys_td]
    exact List.nodup_dedup _
  have hkeys : (evaluateModelMM m (datasetsTest mkDs testFiles)).map Prod.fst
      = subjectsOf testFiles := by
    rw [evaluateModelMM_eq_insFold,
        keys_insFold_of_nodup (subjDictMM m) _ [] hnd (by simp)]
    simpa using hkeys_td
  refine ⟨?_, hkeys, ?_⟩
  · rw [hkeys]
    exact List.nodup_dedup _
  · intro s
    rw [hkeys]
    simp [subjectsOf, List.mem_dedup]

/-- Claim C5: a subject whose evaluation raises makes the whole run fail
before serialization, so eval.json is not written at all; the write
happens exactly when every subject's evaluation succeeded, and then it
serializes the complete mapping. -/
theorem eval_error_propagation {Ds : Type} (names : List String)
    (evalFn : Ds → Option (List ℚ)) (td : List (String × Ds)) :
    ((∃ p ∈ td, evalFn p.2 = none) → evalJsonWrite names evalFn td = none) ∧
    ((∀ p ∈ td, (evalFn p.2).isSome = true) →
      ∃ ev, evaluateModelE names evalFn td = some ev ∧
        evalJsonWrite names evalFn td = some ("eval.json", jsonOfEval ev)) := by
  constructor
  · rintro ⟨p, hp, hnone⟩
    obtain ⟨s, t, rfl⟩ := List.append_of_mem hp
    have hev : evaluateModelE names evalFn (s ++ p :: t) = none := by
      rw [evaluateModelE, List.foldl_append, List.foldl_cons]
      have hstep : evalStepE names evalFn
          (List.foldl (evalStepE names evalFn) (some []) s) p = none := by
        cases h : List.foldl (evalStepE names evalFn) (some []) s with
        | none => rfl
        | some ev => simp [evalStepE, hnone]
      rw [hstep]
      exact foldl_evalStepE_none names evalFn t
    rw [evalJsonWrite, hev]
    rfl
  · intro h
    obtain ⟨ev, hev⟩ := evalE_some names evalFn td [] h
    refine ⟨ev, hev, ?_⟩
    rw [evalJsonWrite, evaluateModelE] at *
    rw [hev]
    rfl

/-- Witness for C5: a failing subject suppresses the eval.json write, a
succeeding one produces it. -/
theorem eval_error_propagation_witness :
    evalJsonWrite ["loss"] (fun _ : Unit => (none : Option (List ℚ))) [("S1", ())] = none ∧
    ∃ ev, evaluateModelE ["loss"] (fun _ : Unit => some [(0 : ℚ)]) [("S1", ())] = some ev ∧
      evalJsonWrite ["loss"] (fun _ : Unit => some [(0 : ℚ)]) [("S1", ())]
        = some ("eval.json", jsonOfEval ev) := by
  constructor
  · exact (eval_error_propagation ["loss"] (fun _ : Unit => (none : Option (List ℚ)))
      [("S1", ())]).1 ⟨("S1", ()), by simp, rfl⟩
  · exact (eval_error_propagation ["loss"] (fun _ : Unit => some [(0 : ℚ)])
      [("S1", ())]).2 (fun p _ => rfl)

/-- Claim C8 (corrected): each subject's metrics dictionary is
dict(zip(metrics_names, results)); its number of entries equals the
number of DISTINCT metric names among the zipped pairs, which equals the
minimum of the two lengths when the metric names are pairwise distinct
(not in general: a duplicated name collapses entries); values beyond the
shorter list are silently dropped, and a duplicated metric name maps to
the value it is paired with last. -/
theorem dict_zip_truncate_overwrite {Ds : Type} (m : KModel Ds) (ds : Ds) :
    (∀ s, dictGet (evaluateModelMM m [(s, ds)]) s = some (subjDictMM m ds)) ∧
    subjDictMM m ds = dictOfPairs (m.metricsNames.zip (m.evalResults ds)) ∧
    (subjDictMM m ds).length
      = ((m.metricsNames.zip (m.evalResults ds)).map Prod.fst).dedup.length ∧
    (m.metricsNames.Nodup →
      (subjDictMM m ds).length = min m.metricsNames.length (m.evalResults ds).length) ∧
    (∀ k, dictGet (subjDictMM m ds) k
      = lastVal (m.metricsNames.zip (m.evalResults ds)) k) := by
  refine ⟨?_, rfl, length_dictOfPairs _, ?_, ?_⟩
  · intro s
    show dictGet (dictInsert [] s (subjDictMM m ds)) s = some (subjDictMM m ds)
    simp [dictInsert, dictGet]
  · intro hnd
    rw [subjDictMM, length_dictOfPairs, map_fst_zip_take]
    rw [List.Nodup.dedup (List.Nodup.sublist (List.take_sublist _ _) hnd)]
    rw [List.length_take, Nat.min_comm]
  · intro k
    rw [subjDictMM, dictGet_dictOfPairs]

/-- Counterexample for C8 as stated: with a duplicated metric name the
dictionary has fewer entries than the minimum of the two lengths. -/
theorem dict_zip_min_length_counterexample :
    ¬ ((subjDictMM (⟨["a", "a"], fun _ => [(1 : ℚ), 2]⟩ : KModel Unit) ()).length
        = min (["a", "a"] : List String).length [(1 : ℚ), 2].length) := by
  decide

/-- Witness for C8 (corrected): with distinct metric names the entry
count is the minimum of the lengths. -/
theorem dict_zip_truncate_overwrite_witness :
    (subjDictMM (⟨["a", "b"], fun _ => [(1 : ℚ), 2, 3]⟩ : KModel Unit) ()).length
      = min 2 3 := by
  have h := (dict_zip_truncate_overwrite
      (⟨["a", "b"], fun _ => [(1 : ℚ), 2, 3]⟩ : KModel Unit) ()).2.2.2.1 (by decide)
  simpa using h

end AuditoryEEG
